import Mathlib

/-!
Shallow embedding of the news-agent core (`news_agent_v2.py`, `app.py`)
and proofs of the specification claims.

Python strings are modelled as `String`, floats as `ℚ`, SQL rows as
structures, tables as `List`s of rows.  The MD5 dedupe hash is modelled
as the identity on the hashed text (collision-free fingerprint).
-/

namespace NewsAgent

/-- Substring test: `strContains hay needle` models Python's
`needle in hay` membership test on strings. -/
def strContains (hay needle : String) : Bool :=
  go hay.toList needle.toList
where
  go : List Char → List Char → Bool
    | [], n => n.isEmpty
    | h :: t, n => n.isPrefixOf (h :: t) || go t n

/-- Lower-casing of a single character as Python's `str.lower` does it for
the alphabets appearing in this repository (ASCII plus Russian Cyrillic). -/
def pyLowerChar (c : Char) : Char :=
  if 'A' ≤ c ∧ c ≤ 'Z' then Char.ofNat (c.toNat + 32)
  else if 'А' ≤ c ∧ c ≤ 'Я' then Char.ofNat (c.toNat + 32)
  else if c = 'Ё' then 'ё'
  else c

/-- Python `text.lower()`. -/
def pyLower (s : String) : String := ⟨s.data.map pyLowerChar⟩

/-- SQLite `LOWER(x)`: lower-cases ASCII characters only. -/
def sqlLower (s : String) : String := ⟨s.data.map Char.toLower⟩

/-- Python `text.strip()`. -/
def pyStrip (s : String) : String := s.trim

/-- The category → keyword table from `self.settings["categories"]`
(`news_agent_v2.py` lines 45-52), in insertion order. -/
def categoriesTable : List (String × List String) :=
  [("технологии", ["ии", "искусственный интеллект", "ai", "нейросеть", "чат", "gpt", "программирование", "it"]),
   ("политика", ["путин", "правительство", "сша", "украин", "санкци", "выборы", "политика"]),
   ("экономика", ["рубль", "доллар", "биржа", "инфляция", "экономика", "рынок", "кризис"]),
   ("наука", ["наука", "открытие", "исследование", "ученые", "космос", "медицина"]),
   ("спорт", ["спорт", "футбол", "хоккей", "чемпионат", "олимпиада"])]

/-- Inner double loop of `_categorize_text`: walk the category table in
order, return the first category one of whose keywords occurs in the
lowered text. -/
def categorizeGo (tl : String) : List (String × List String) → String
  | [] => "разное"
  | (cat, kws) :: rest =>
      if kws.any (fun kw => strContains tl kw) then cat else categorizeGo tl rest

/-- Embedding of `NewsAgentV2._categorize_text` (lines 186-195). -/
def categorize_text (text : String) : String :=
  categorizeGo (pyLower text) categoriesTable

/-- The `source_weights` dict of `_calculate_importance` (lines 202-207),
read through `dict.get(source, 0.5)`. -/
def sourceWeight (source : String) : ℚ :=
  if source = "РИА Новости" then 0.8
  else if source = "ТАСС" then 0.8
  else if source = "Лента.ру" then 0.7
  else if source = "РБК" then 0.6
  else 0.5

/-- The `important_words` list of `_calculate_importance` (lines 211-214). -/
def important_words : List String :=
  ["путин", "война", "кризис", "сша", "китай", "прорыв", "революция", "катастрофа", "теракт"]

/-- The `category_weights` dict of `_calculate_importance` (lines 222-227),
read through `dict.get(category, 0.0)`. -/
def categoryWeight (category : String) : ℚ :=
  if category = "политика" then 0.3
  else if category = "экономика" then 0.2
  else if category = "технологии" then 0.2
  else if category = "наука" then 0.1
  else 0

/-- Embedding of `NewsAgentV2._calculate_importance` (lines 197-230):
score starts at 0.0, adds the source weight, adds 0.2 once if any
important word occurs in the lowered title (the Python loop breaks on the
first match, which equals an `any` test), adds the category weight, and
is clamped by `min(score, 1.0)`. -/
def calculate_importance (title source category : String) : ℚ :=
  let score : ℚ := 0
  let score := score + sourceWeight source
  let score :=
    score + (if important_words.any (fun w => strContains (pyLower title) w) then 0.2 else 0)
  let score := score + categoryWeight category
  min score 1

/-- The importance heuristic as §4.2 of the spec words it: a per-source
base weight (default 0.5), plus a single 0.2 high-impact-title bonus,
plus a per-category weight (0 for unlisted categories), clamped to 1.0. -/
def scoreImportanceSpec (title source category : String) : ℚ :=
  min (sourceWeight source
        + (if important_words.any (fun w => strContains (pyLower title) w) then 0.2 else 0)
        + categoryWeight category) 1

theorem sourceWeight_bounds (source : String) :
    1/2 ≤ sourceWeight source ∧ sourceWeight source ≤ 4/5 := by
  unfold sourceWeight
  split_ifs <;> norm_num

theorem categoryWeight_bounds (category : String) :
    0 ≤ categoryWeight category ∧ categoryWeight category ≤ 3/10 := by
  unfold categoryWeight
  split_ifs <;> norm_num

/-- C5: for all inputs, `_calculate_importance` equals the additive
heuristic described in the spec (per-source base weight with default 0.5,
a single 0.2 high-impact bonus, per-category weight with default 0,
clamped to 1.0), and its value always lies in the interval [0, 1]. -/
theorem C5_importance_spec (title source category : String) :
    calculate_importance title source category = scoreImportanceSpec title source category
      ∧ 0 ≤ calculate_importance title source category
      ∧ calculate_importance title source category ≤ 1 := by
  have hs := sourceWeight_bounds source
  have hc := categoryWeight_bounds category
  refine ⟨?_, ?_, ?_⟩
  · unfold calculate_importance scoreImportanceSpec
    simp [zero_add]
  · unfold calculate_importance
    have hb : (0:ℚ) ≤ (if important_words.any (fun w => strContains (pyLower title) w) then (0.2:ℚ) else 0) := by
      split_ifs <;> norm_num
    simp only
    have : (0:ℚ) ≤ 0 + sourceWeight source
        + (if important_words.any (fun w => strContains (pyLower title) w) then (0.2:ℚ) else 0)
        + categoryWeight category := by linarith [hs.1, hc.1]
    exact le_min this (by norm_num)
  · unfold calculate_importance
    exact min_le_right _ _

theorem categorizeGo_eq_find (tl : String) (tbl : List (String × List String)) :
    categorizeGo tl tbl
      = (((tbl.find? (fun p => p.2.any (fun kw => strContains tl kw))).map Prod.fst).getD "разное") := by
  induction tbl with
  | nil => rfl
  | cons hd rest ih =>
      rcases hd with ⟨cat, kws⟩
      by_cases h : (kws.any (fun kw => strContains tl kw)) = true
      · simp [categorizeGo, h]
      · have h' : (kws.any (fun kw => strContains tl kw)) = false := by
          simpa using h
        simp [categorizeGo, h', ih]

/-- C6: `_categorize_text` is characterized by a first-match walk of the
fixed category table: it returns the first category (in table order) one
of whose keywords occurs in the lower-cased text, and returns the default
category "разное" whenever no keyword of any category matches. -/
theorem C6_categorize_spec (text : String) :
    categorize_text text
      = (((categoriesTable.find?
            (fun p => p.2.any (fun kw => strContains (pyLower text) kw))).map Prod.fst).getD "разное")
      ∧ ((categoriesTable.all
            (fun p => p.2.all (fun kw => !strContains (pyLower text) kw))) = true →
          categorize_text text = "разное") := by
  refine ⟨categorizeGo_eq_find _ _, fun hall => ?_⟩
  rw [categorize_text, categorizeGo_eq_find]
  have hnone :
      categoriesTable.find? (fun p => p.2.any (fun kw => strContains (pyLower text) kw)) = none := by
    rw [List.find?_eq_none]
    intro p hp
    have hp' := (List.all_eq_true.mp hall) p hp
    simp only [List.any_eq_true, not_exists, not_and]
    intro kw hkw
    have h2 := (List.all_eq_true.mp hp') kw hkw
    simp only [Bool.not_eq_true'] at h2
    simp [h2]
  rw [hnone]
  rfl

/-- Witness for C6 at a concrete unmatched text. -/
theorem C6_witness :
    (categoriesTable.all
        (fun p => p.2.all (fun kw => !strContains (pyLower "Привет мир") kw))) = true
      ∧ categorize_text "Привет мир" = "разное" := by
  refine ⟨by decide, (C6_categorize_spec "Привет мир").2 (by decide)⟩

/-- A row of the `news` table as created by `_init_database`
(`news_agent_v2.py` lines 70-86); TEXT columns that may be NULL are
`Option String`, the REAL `importance` column is `ℚ`. -/
structure NewsRow where
  id : Nat
  hash : String
  title : String
  content : String
  summary : Option String
  source : String
  url : String
  category : String
  keywords : Option String
  importance : ℚ
  published : String
  collected_at : String
  analyzed_at : Option String
deriving DecidableEq

/-- One `LOWER(column) LIKE '%' || pattern || '%'` clause of the search
query (`search_news`, lines 616-631).  SQLite `LOWER` lower-cases ASCII
only and `LIKE` itself compares ASCII case-insensitively, so both sides
pass through `sqlLower`; a NULL column never matches. -/
def likeMatch (column : Option String) (pattern : String) : Bool :=
  match column with
  | none => false
  | some s => strContains (sqlLower s) (sqlLower pattern)

/-- The WHERE clause of `search_news`: title OR content OR category OR
keywords, each matched against the Python-lowered query. -/
def searchMatch (queryLower : String) (r : NewsRow) : Bool :=
  likeMatch (some r.title) queryLower || likeMatch (some r.content) queryLower
    || likeMatch (some r.category) queryLower || likeMatch r.keywords queryLower

/-- The `ORDER BY importance DESC, published DESC` comparator used by
`search_news` (line 623) and `analyze_news_articles` (line 439): row `a`
may precede row `b` iff `a`'s (importance, published) key is
lexicographically at least `b`'s (TEXT columns compare as strings). -/
def orderLE (a b : NewsRow) : Bool :=
  decide (b.importance < a.importance)
    || (decide (a.importance = b.importance) && decide (b.published ≤ a.published))

theorem orderLE_trans (a b c : NewsRow) :
    orderLE a b = true → orderLE b c = true → orderLE a c = true := by
  simp only [orderLE, Bool.or_eq_true, Bool.and_eq_true, decide_eq_true_eq]
  rintro (h1 | ⟨h1, h1p⟩) (h2 | ⟨h2, h2p⟩)
  · exact Or.inl (lt_trans h2 h1)
  · exact Or.inl (lt_of_eq_of_lt h2.symm h1)
  · exact Or.inl (lt_of_lt_of_eq h2 h1.symm)
  · exact Or.inr ⟨h1.trans h2, le_trans h2p h1p⟩

theorem orderLE_total (a b : NewsRow) :
    orderLE a b || orderLE b a := by
  simp only [orderLE, Bool.or_eq_true, Bool.and_eq_true, decide_eq_true_eq]
  rcases lt_trichotomy a.importance b.importance with h | h | h
  · exact Or.inr (Or.inl h)
  · rcases le_total a.published b.published with hp | hp
    · exact Or.inr (Or.inr ⟨h.symm, hp⟩)
    · exact Or.inl (Or.inr ⟨h, hp⟩)
  · exact Or.inl (Or.inl h)

/-- Embedding of `NewsAgentV2.search_news` (lines 601-650): the rows
satisfying the four LIKE clauses, ordered by importance desc then
published desc, truncated by `LIMIT ?` at the caller-supplied limit. -/
def search_news (news : List NewsRow) (query : String) (limit : Nat) : List NewsRow :=
  ((news.filter (searchMatch (pyLower query))).mergeSort orderLE).take limit

/-- The limit clamp of the web route `api_search` (`app.py` line 360):
`limit = min(int(request.args.get('limit', 20)), 50)`. -/
def api_search_limit (requested : Nat) : Nat := min requested 50

/-- A family of stored rows, all matching the query "t", used to exhibit
search results larger than 50. -/
def mkSearchRow (i : Nat) : NewsRow :=
  { id := i, hash := toString i, title := "t", content := "", summary := none,
    source := "s", url := "", category := "c", keywords := none,
    importance := 1, published := "2025-01-01", collected_at := "", analyzed_at := none }

def bigDb : List NewsRow := (List.range 51).map mkSearchRow

/-- C4 counterexample: `search_news` itself enforces no hard ceiling of
50 — a database of 51 matching rows queried with caller limit 51 returns
51 results. -/
theorem C4_counterexample : 50 < (search_news bigDb "t" 51).length := by
  have hfilter : bigDb.filter (searchMatch (pyLower "t")) = bigDb := by
    rw [List.filter_eq_self]
    intro r hr
    rcases List.mem_map.mp hr with ⟨i, _, rfl⟩
    rfl
  have hlen : bigDb.length = 51 := by
    simp [bigDb]
  rw [search_news, hfilter, List.length_take, List.length_mergeSort, hlen]
  simp

/-- C4 as amended: `search_news` returns only rows of the store matching
one of the four (ASCII-case-insensitive) substring clauses, in
importance-desc/published-desc order, capped at the caller-supplied
limit (and returning all matches when they fit below that limit); the
hard ceiling of 50 is applied by the presentation layer, which clamps
the requested limit to `min(requested, 50)` before calling
`search_news`. -/
theorem C4_search_spec (news : List NewsRow) (query : String) (limit requested : Nat) :
    (search_news news query limit).length ≤ limit
    ∧ (∀ r ∈ search_news news query limit, r ∈ news ∧ searchMatch (pyLower query) r = true)
    ∧ (search_news news query limit).Pairwise (fun a b => orderLE a b = true)
    ∧ ((news.filter (searchMatch (pyLower query))).length ≤ limit →
        (search_news news query limit).Perm (news.filter (searchMatch (pyLower query))))
    ∧ (search_news news query (api_search_limit requested)).length ≤ 50 := by
  refine ⟨?_, ?_, ?_, ?_, ?_⟩
  · rw [search_news, List.length_take]
    exact min_le_left _ _
  · intro r hr
    have hr1 : r ∈ (news.filter (searchMatch (pyLower query))).mergeSort orderLE :=
      List.mem_of_mem_take hr
    have hr2 : r ∈ news.filter (searchMatch (pyLower query)) := List.mem_mergeSort.mp hr1
    exact ⟨(List.mem_filter.mp hr2).1, (List.mem_filter.mp hr2).2⟩
  · have hs := List.sorted_mergeSort orderLE_trans orderLE_total
      (news.filter (searchMatch (pyLower query)))
    exact hs.sublist (List.take_sublist _ _)
  · intro hle
    have hlen : ((news.filter (searchMatch (pyLower query))).mergeSort orderLE).length ≤ limit := by
      rw [List.length_mergeSort]; exact hle
    rw [search_news, List.take_of_length_le hlen]
    exact List.mergeSort_perm _ _
  · rw [search_news, List.length_take]
    exact le_trans (min_le_left _ _) (min_le_right requested 50)

/-- Witness for C4 at a concrete one-row store. -/
theorem C4_witness :
    (([mkSearchRow 0].filter (searchMatch (pyLower "t"))).length ≤ 5)
    ∧ (search_news [mkSearchRow 0] "t" 5).Perm
        ([mkSearchRow 0].filter (searchMatch (pyLower "t"))) :=
  ⟨by decide, (C4_search_spec [mkSearchRow 0] "t" 5 7).2.2.2.1 (by decide)⟩

/-- A feed entry as `feedparser` presents it to `collect_news`: each
field is read with `entry.get(key, default)`, so an absent field is
`none` here and the Python default is applied at the use site. -/
structure FeedEntry where
  title : Option String
  link : Option String
  summary : Option String
  description : Option String
  published : Option String
deriving DecidableEq

/-- Embedding of `_generate_hash` (lines 182-184): the MD5 hex digest is
modelled as the identity fingerprint of the hashed text. -/
def generate_hash (text : String) : String := text

/-- The hash argument built in `collect_news` (lines 363-365):
`f"{entry.get('link', '')}{entry.get('title', '')}"`. -/
def entryHash (e : FeedEntry) : String :=
  generate_hash ((e.link.getD "") ++ (e.title.getD ""))

/-- A row of the `stats` table (lines 101-108); each counter column has
`DEFAULT 0`. -/
structure StatsRow where
  date : String
  news_collected : Nat
  news_analyzed : Nat
  analyses_made : Nat
deriving DecidableEq

/-- The persistent SQLite state used by the pipelines: the `news` and
`stats` tables plus the AUTOINCREMENT cursor for `news.id`. -/
structure AgentDB where
  news : List NewsRow
  stats : List StatsRow
  nextId : Nat
deriving DecidableEq

/-- Row lookup by primary key in the `stats` table. -/
def getStats (stats : List StatsRow) (d : String) : Option StatsRow :=
  stats.find? (fun r => r.date == d)

/-- The statistics upsert of `collect_news` (lines 416-419):
`INSERT OR REPLACE INTO stats (date, news_collected) VALUES (?,
COALESCE((SELECT news_collected FROM stats WHERE date = ?), 0) + ?)`.
`INSERT OR REPLACE` deletes any row with the same primary key and
inserts a fresh one; the columns not named in the INSERT take their
declared `DEFAULT 0`. -/
def upsertCollected (stats : List StatsRow) (today : String) (delta : Nat) : List StatsRow :=
  let old := ((getStats stats today).map (·.news_collected)).getD 0
  stats.filter (fun r => r.date != today)
    ++ [{ date := today, news_collected := old + delta, news_analyzed := 0, analyses_made := 0 }]

/-- The statistics upsert of `analyze_news_articles` (lines 491-494),
same `INSERT OR REPLACE` shape for the `news_analyzed` column. -/
def upsertAnalyzed (stats : List StatsRow) (today : String) (delta : Nat) : List StatsRow :=
  let old := ((getStats stats today).map (·.news_analyzed)).getD 0
  stats.filter (fun r => r.date != today)
    ++ [{ date := today, news_collected := 0, news_analyzed := old + delta, analyses_made := 0 }]

/-- The statistics upsert of `analyze_topic` (lines 565-568), same
`INSERT OR REPLACE` shape, incrementing `analyses_made` by one. -/
def upsertAnalyses (stats : List StatsRow) (today : String) : List StatsRow :=
  let old := ((getStats stats today).map (·.analyses_made)).getD 0
  stats.filter (fun r => r.date != today)
    ++ [{ date := today, news_collected := 0, news_analyzed := 0, analyses_made := old + 1 }]

/-- Processing of one feed entry inside `collect_news` (lines 361-405):
hash, dedupe lookup, field preparation with the `entry.get` defaults,
categorization, importance scoring, and the INSERT.  Returns the new
state and whether a row was inserted. -/
def collectEntry (db : AgentDB) (source_name now : String) (e : FeedEntry) : AgentDB × Bool :=
  let article_hash := entryHash e
  if db.news.any (fun r => r.hash == article_hash) then (db, false)
  else
    let title := pyStrip (e.title.getD "Без заголовка")
    let content := pyStrip (e.summary.getD (e.description.getD ""))
    let url := e.link.getD ""
    let published := e.published.getD now
    let category := categorize_text title
    let importance := calculate_importance title source_name category
    let row : NewsRow :=
      { id := db.nextId, hash := article_hash, title := title, content := content,
        summary := none, source := source_name, url := url, category := category,
        keywords := none, importance := importance, published := published,
        collected_at := now, analyzed_at := none }
    ({ db with news := db.news ++ [row], nextId := db.nextId + 1 }, true)

/-- The inner entry loop of `collect_news` over the first
`limit_per_source` entries of one feed; returns the state and
`source_collected`. -/
def processEntries (db : AgentDB) (source_name now : String) : List FeedEntry → AgentDB × Nat
  | [] => (db, 0)
  | e :: es =>
      let p1 := collectEntry db source_name now e
      let p2 := processEntries p1.1 source_name now es
      (p2.1, (if p1.2 then 1 else 0) + p2.2)

/-- One iteration of the source loop of `collect_news` (lines 350-410):
fetching and parsing the feed is modelled by an `Except` value; an
exception is caught by the `except` clause and the source contributes
nothing (an empty feed is `continue`d over, which processes no entries
either way). -/
def collectSource (db : AgentDB) (limit_per_source : Nat) (now : String) :
    Except String (List FeedEntry) × String → AgentDB × Nat
  | (.error _, _) => (db, 0)
  | (.ok entries, source_name) =>
      processEntries db source_name now (entries.take limit_per_source)

/-- The source loop of `collect_news`, accumulating `total_collected`. -/
def collectSources (db : AgentDB) (limit_per_source : Nat) (now : String) :
    List (Except String (List FeedEntry) × String) → AgentDB × Nat
  | [] => (db, 0)
  | s :: rest =>
      let p1 := collectSource db limit_per_source now s
      let p2 := collectSources p1.1 limit_per_source now rest
      (p2.1, p1.2 + p2.2)

/-- Embedding of `NewsAgentV2.collect_news` (lines 338-422): iterate the
configured sources with per-source failures caught, then run the
`news_collected` statistics upsert with the total; returns the new state
and `total_collected`. -/
def collect_news (db : AgentDB) (limit_per_source : Nat)
    (sources : List (Except String (List FeedEntry) × String)) (now today : String) :
    AgentDB × Nat :=
  let p := collectSources db limit_per_source now sources
  ({ p.1 with stats := upsertCollected p.1.stats today p.2 }, p.2)

/-- The multiset of dedupe hashes currently stored in the `news` table. -/
def hashes (db : AgentDB) : List String := db.news.map (·.hash)

/-- The `hash TEXT UNIQUE` integrity invariant of the `news` table. -/
def noDupHash (db : AgentDB) : Prop := (hashes db).Nodup

theorem mem_hashes_collectEntry (db : AgentDB) (s now : String) (e : FeedEntry)
    (x : String) (hx : x ∈ hashes db) : x ∈ hashes (collectEntry db s now e).1 := by
  rw [collectEntry]
  split
  · exact hx
  · simp only [hashes, List.map_append]
    exact List.mem_append_left _ hx

theorem hash_mem_collectEntry (db : AgentDB) (s now : String) (e : FeedEntry) :
    entryHash e ∈ hashes (collectEntry db s now e).1 := by
  rw [collectEntry]
  split
  · rename_i h
    rcases List.any_eq_true.mp h with ⟨r, hr, hbeq⟩
    have : r.hash = entryHash e := by simpa using hbeq
    exact this ▸ List.mem_map_of_mem _ hr
  · simp [hashes]

theorem mem_hashes_processEntries (db : AgentDB) (s now : String) (es : List FeedEntry)
    (x : String) (hx : x ∈ hashes db) : x ∈ hashes (processEntries db s now es).1 := by
  induction es generalizing db with
  | nil => exact hx
  | cons e es ih =>
      exact ih _ (mem_hashes_collectEntry db s now e x hx)

theorem hashes_mem_processEntries (db : AgentDB) (s now : String) (es : List FeedEntry) :
    ∀ e ∈ es, entryHash e ∈ hashes (processEntries db s now es).1 := by
  induction es generalizing db with
  | nil => intro e he; cases he
  | cons e0 es ih =>
      intro e he
      rcases List.mem_cons.mp he with rfl | he
      · exact mem_hashes_processEntries _ s now es _ (hash_mem_collectEntry db s now e)
      · exact ih _ e he

theorem processEntries_of_stale (db : AgentDB) (s now : String) (es : List FeedEntry)
    (h : ∀ e ∈ es, entryHash e ∈ hashes db) : processEntries db s now es = (db, 0) := by
  induction es with
  | nil => rfl
  | cons e es ih =>
      have he : entryHash e ∈ hashes db := h e (List.mem_cons_self _ _)
      have hany : db.news.any (fun r => r.hash == entryHash e) = true := by
        rcases List.mem_map.mp he with ⟨r, hr, hh⟩
        exact List.any_eq_true.mpr ⟨r, hr, by simpa using hh⟩
      have hce : collectEntry db s now e = (db, false) := by
        rw [collectEntry, if_pos hany]
      rw [processEntries, hce]
      simp only
      rw [ih (fun e2 h2 => h e2 (List.mem_cons_of_mem _ h2))]
      simp

theorem noDupHash_collectEntry (db : AgentDB) (s now : String) (e : FeedEntry)
    (h : noDupHash db) : noDupHash (collectEntry db s now e).1 := by
  rw [collectEntry]
  split
  · exact h
  · rename_i hany
    have hany' : (db.news.any fun r => r.hash == entryHash e) = false := by
      simpa using hany
    have hnot : entryHash e ∉ hashes db := by
      intro hmem
      rcases List.mem_map.mp hmem with ⟨r, hr, hh⟩
      have hb : (r.hash == entryHash e) = true := beq_iff_eq.mpr hh
      have hcontra : (db.news.any fun r2 => r2.hash == entryHash e) = true :=
        List.any_eq_true.mpr ⟨r, hr, hb⟩
      rw [hany'] at hcontra
      exact Bool.false_ne_true hcontra
    simp only [noDupHash, hashes, List.map_append, List.map_cons, List.map_nil]
    rw [List.nodup_append]
    refine ⟨h, List.nodup_singleton _, ?_⟩
    intro a ha hb2
    rw [List.mem_singleton] at hb2
    exact hnot (hb2 ▸ ha)

theorem noDupHash_processEntries (db : AgentDB) (s now : String) (es : List FeedEntry)
    (h : noDupHash db) : noDupHash (processEntries db s now es).1 := by
  induction es generalizing db with
  | nil => exact h
  | cons e es ih => exact ih _ (noDupHash_collectEntry db s now e h)

theorem mem_hashes_collectSources (db : AgentDB) (lim : Nat) (now : String)
    (srcs : List (Except String (List FeedEntry) × String))
    (x : String) (hx : x ∈ hashes db) : x ∈ hashes (collectSources db lim now srcs).1 := by
  induction srcs generalizing db with
  | nil => exact hx
  | cons s rest ih =>
      rcases s with ⟨fetch, name⟩
      cases fetch with
      | error err => exact ih _ hx
      | ok entries => exact ih _ (mem_hashes_processEntries db name now _ x hx)

theorem noDupHash_collectSources (db : AgentDB) (lim : Nat) (now : String)
    (srcs : List (Except String (List FeedEntry) × String))
    (h : noDupHash db) : noDupHash (collectSources db lim now srcs).1 := by
  induction srcs generalizing db with
  | nil => exact h
  | cons s rest ih =>
      rcases s with ⟨fetch, name⟩
      cases fetch with
      | error err => exact ih _ h
      | ok entries => exact ih _ (noDupHash_processEntries db name now _ h)

theorem hashes_mem_collectSources (db : AgentDB) (lim : Nat) (now : String)
    (srcs : List (Except String (List FeedEntry) × String)) :
    ∀ s ∈ srcs, ∀ entries, s.1 = .ok entries →
      ∀ e ∈ entries.take lim, entryHash e ∈ hashes (collectSources db lim now srcs).1 := by
  induction srcs generalizing db with
  | nil => intro s hs; cases hs
  | cons s0 rest ih =>
      intro s hs entries hok e he
      rcases List.mem_cons.mp hs with rfl | hs
      · rcases s with ⟨fetch, name⟩
        cases hok
        exact mem_hashes_collectSources _ lim now rest _
          (hashes_mem_processEntries db name now _ e he)
      · exact ih _ s hs entries hok e he

theorem collectSources_of_stale (db : AgentDB) (lim : Nat) (now : String)
    (srcs : List (Except String (List FeedEntry) × String))
    (h : ∀ s ∈ srcs, ∀ entries, s.1 = .ok entries →
          ∀ e ∈ entries.take lim, entryHash e ∈ hashes db) :
    collectSources db lim now srcs = (db, 0) := by
  induction srcs with
  | nil => rfl
  | cons s0 rest ih =>
      rcases s0 with ⟨fetch, name⟩
      have hrest : collectSources db lim now rest = (db, 0) :=
        ih (fun s hs entries hok e he => h s (List.mem_cons_of_mem _ hs) entries hok e he)
      cases fetch with
      | error err =>
          rw [collectSources]
          simp only [collectSource]
          rw [hrest]
          simp
      | ok entries =>
          have hpe : processEntries db name now (entries.take lim) = (db, 0) :=
            processEntries_of_stale db name now _
              (fun e he => h (.ok entries, name) (List.mem_cons_self _ _) entries rfl e he)
          rw [collectSources]
          simp only [collectSource]
          rw [hpe, hrest]
          simp

theorem nodup_filter_hash_le_one (news : List NewsRow) (h : (news.map (·.hash)).Nodup)
    (x : String) : (news.filter (fun r => r.hash == x)).length ≤ 1 := by
  induction news with
  | nil => simp
  | cons r rest ih =>
      simp only [List.map_cons, List.nodup_cons] at h
      by_cases hr : (r.hash == x) = true
      · have hx : r.hash = x := by simpa using hr
        have : rest.filter (fun r2 => r2.hash == x) = [] := by
          rw [List.filter_eq_nil_iff]
          intro r2 hr2 hbeq
          exact h.1 (hx ▸ (by simpa using hbeq : r2.hash = x) ▸ List.mem_map_of_mem _ hr2)
        simp [List.filter_cons, hr, this]
      · simp only [List.filter_cons, hr]
        exact ih h.2

/-- C1: dedupe correctness and idempotence of `collect_news`.  Starting
from any state whose stored hashes are distinct (the `hash TEXT UNIQUE`
constraint): (i) running `collect_news` again over the same feed
snapshot inserts zero new rows; (ii) hash-distinctness is preserved, so
it holds across any number of invocations; (iii) after a collect, for
any feed entry at most one stored row carries its dedupe key
`hash(url + title)` — hence two entries with identical (url, title),
whose keys coincide, can never account for two stored rows. -/
theorem C1_collect_dedup_idempotent (db : AgentDB) (lim : Nat)
    (srcs : List (Except String (List FeedEntry) × String))
    (now today now2 today2 : String) (h : noDupHash db) :
    (collect_news (collect_news db lim srcs now today).1 lim srcs now2 today2).2 = 0
    ∧ noDupHash (collect_news db lim srcs now today).1
    ∧ ∀ e : FeedEntry,
        ((collect_news db lim srcs now today).1.news.filter
          (fun r => r.hash == entryHash e)).length ≤ 1 := by
  have hdb1news : (collect_news db lim srcs now today).1.news
      = (collectSources db lim now srcs).1.news := rfl
  have hnodup : noDupHash (collect_news db lim srcs now today).1 := by
    show ((collect_news db lim srcs now today).1.news.map (·.hash)).Nodup
    rw [hdb1news]
    exact noDupHash_collectSources db lim now srcs h
  refine ⟨?_, hnodup, ?_⟩
  · have hstale : ∀ s ∈ srcs, ∀ entries, s.1 = .ok entries →
        ∀ e ∈ entries.take lim, entryHash e ∈ hashes (collect_news db lim srcs now today).1 := by
      intro s hs entries hok e he
      show entryHash e ∈ (collect_news db lim srcs now today).1.news.map (·.hash)
      rw [hdb1news]
      exact hashes_mem_collectSources db lim now srcs s hs entries hok e he
    rw [collect_news]
    rw [collectSources_of_stale _ lim now2 srcs hstale]
  · intro e
    exact nodup_filter_hash_le_one _ hnodup _

/-- Witness for C1 on the empty store and a one-entry feed. -/
theorem C1_witness :
    noDupHash ⟨[], [], 1⟩
    ∧ (collect_news
        (collect_news ⟨[], [], 1⟩ 3
          [(.ok [⟨some "T", some "http://u", some "s", none, some "p"⟩], "Лента.ру")] "t1" "d1").1 3
        [(.ok [⟨some "T", some "http://u", some "s", none, some "p"⟩], "Лента.ру")] "t2" "d2").2 = 0 :=
  ⟨by simp [noDupHash, hashes],
   (C1_collect_dedup_idempotent ⟨[], [], 1⟩ 3
      [(.ok [⟨some "T", some "http://u", some "s", none, some "p"⟩], "Лента.ру")] "t1" "d1" "t2" "d2"
      (by simp [noDupHash, hashes])).1⟩

/-- C9: partial-failure isolation of `collect_news` — a source whose
fetch/parse raises is caught and skipped, and the run is identical to a
run over the remaining sources, so every article of every other source
is still inserted. -/
theorem C9_partial_failure_isolation (db : AgentDB) (lim : Nat)
    (pre suf : List (Except String (List FeedEntry) × String))
    (err name now today : String) :
    collect_news db lim (pre ++ (Except.error err, name) :: suf) now today
      = collect_news db lim (pre ++ suf) now today := by
  have hgo : ∀ d : AgentDB,
      collectSources d lim now (pre ++ (Except.error err, name) :: suf)
        = collectSources d lim now (pre ++ suf) := by
    induction pre with
    | nil =>
        intro d
        rw [List.nil_append, List.nil_append, collectSources]
        simp only [collectSource]
        simp [Nat.zero_add]
    | cons s rest ih =>
        intro d
        rw [List.cons_append, List.cons_append, collectSources, collectSources]
        rw [ih]
  rw [collect_news, collect_news, hgo]

theorem getStats_filter_append_self (stats : List StatsRow) (row : StatsRow) (d : String)
    (hd : row.date = d) :
    getStats (stats.filter (fun r => r.date != d) ++ [row]) d = some row := by
  rw [getStats, List.find?_append]
  have h1 : (stats.filter (fun r => r.date != d)).find? (fun r => r.date == d) = none := by
    rw [List.find?_eq_none]
    intro x hx
    have hne := (List.mem_filter.mp hx).2
    simp only [bne_iff_ne, ne_eq] at hne
    simp [hne]
  have h2 : (row.date == d) = true := beq_iff_eq.mpr hd
  rw [h1]
  simp [List.find?, h2]

theorem getStats_filter_append_other (stats : List StatsRow) (row : StatsRow) (d d2 : String)
    (hd : row.date = d) (hne : d2 ≠ d) :
    getStats (stats.filter (fun r => r.date != d) ++ [row]) d2 = getStats stats d2 := by
  rw [getStats, List.find?_append]
  have hrow : (row.date == d2) = false := by
    simp only [beq_eq_false_iff_ne, ne_eq, hd]
    exact fun hEq => hne hEq.symm
  have h2 : List.find? (fun r => r.date == d2) [row] = none := by
    simp [List.find?, hrow]
  rw [h2]
  have h1 : (stats.filter (fun r => r.date != d)).find? (fun r => r.date == d2)
      = stats.find? (fun r => r.date == d2) := by
    induction stats with
    | nil => rfl
    | cons x rest ih =>
        by_cases hx : x.date = d
        · have hxb : (x.date != d) = false := by simp [hx]
          have hxd2 : (x.date == d2) = false := by
            simp only [beq_eq_false_iff_ne, ne_eq, hx]
            exact fun hEq => hne hEq.symm
          rw [List.filter_cons]
          simp only [hxb, Bool.false_eq_true, if_false]
          rw [ih, List.find?]
          simp [hxd2]
        · have hxb : (x.date != d) = true := by simpa using hx
          rw [List.filter_cons]
          simp only [hxb, if_true]
          by_cases hx2 : (x.date == d2) = true
          · rw [List.find?, List.find?]
            simp [hx2]
          · have hx2f : (x.date == d2) = false := by simpa using hx2
            rw [List.find?, List.find?]
            simp only [hx2f]
            exact ih
  rw [h1, Option.or_none]
  rfl

/-- C2 counterexample: the `INSERT OR REPLACE` upsert run by
`collect_news` names only the `news_collected` column, so the replaced
row takes `DEFAULT 0` for the other two counters — here `news_analyzed`
drops from 5 to 0, so the counters are not append-only. -/
theorem C2_counterexample :
    ((getStats [⟨"2025-06-01", 1, 5, 2⟩] "2025-06-01").map (·.news_analyzed) = some 5)
    ∧ ((getStats (upsertCollected [⟨"2025-06-01", 1, 5, 2⟩] "2025-06-01" 3)
          "2025-06-01").map (·.news_analyzed) = some 0)
    ∧ ((getStats (upsertCollected [⟨"2025-06-01", 1, 5, 2⟩] "2025-06-01" 3)
          "2025-06-01").map (·.news_collected) = some 4) := by
  refine ⟨rfl, ?_, ?_⟩ <;> rfl

/-- C2 as amended: each of the three daily-counter upserts has
create-if-absent-else-add semantics for its named field and leaves the
rows of other dates untouched, but — because `INSERT OR REPLACE`
replaces the whole row and the unnamed columns revert to `DEFAULT 0` —
it resets the other two counters of that date to 0, so the counters are
not append-only across different pipeline runs on the same date. -/
theorem C2_upsert_spec (stats : List StatsRow) (d : String) (n : Nat) :
    (getStats (upsertCollected stats d n) d
       = some { date := d,
                news_collected := ((getStats stats d).map (·.news_collected)).getD 0 + n,
                news_analyzed := 0, analyses_made := 0 })
    ∧ (∀ d2, d2 ≠ d → getStats (upsertCollected stats d n) d2 = getStats stats d2)
    ∧ (getStats (upsertAnalyzed stats d n) d
       = some { date := d, news_collected := 0,
                news_analyzed := ((getStats stats d).map (·.news_analyzed)).getD 0 + n,
                analyses_made := 0 })
    ∧ (getStats (upsertAnalyses stats d) d
       = some { date := d, news_collected := 0, news_analyzed := 0,
                analyses_made := ((getStats stats d).map (·.analyses_made)).getD 0 + 1 }) :=
  ⟨getStats_filter_append_self stats _ d rfl,
   fun d2 h2 => getStats_filter_append_other stats _ d d2 rfl h2,
   getStats_filter_append_self stats _ d rfl,
   getStats_filter_append_self stats _ d rfl⟩

/-- Witness for C2 at a concrete store and a different date. -/
theorem C2_witness :
    ("2025-06-02" : String) ≠ "2025-06-01"
    ∧ getStats (upsertCollected [⟨"2025-06-01", 1, 5, 2⟩] "2025-06-01" 3) "2025-06-02"
        = getStats [⟨"2025-06-01", 1, 5, 2⟩] "2025-06-02" :=
  ⟨by decide,
   (C2_upsert_spec [⟨"2025-06-01", 1, 5, 2⟩] "2025-06-01" 3).2.1 "2025-06-02" (by decide)⟩

/-- The selection query of `analyze_news_articles` (lines 435-441):
`SELECT ... FROM news WHERE analyzed_at IS NULL ORDER BY importance
DESC, published DESC LIMIT ?`. -/
def findUnenriched (news : List NewsRow) (limit : Nat) : List NewsRow :=
  ((news.filter (fun r => r.analyzed_at == none)).mergeSort orderLE).take limit

/-- The single-row UPDATE of `analyze_news_articles` (lines 467-476) —
also the Store's `markEnriched`: `UPDATE news SET summary = ?, keywords
= ?, analyzed_at = ? WHERE id = ?`.  SQLite raises nothing when the
WHERE clause matches no row. -/
def markAnalyzed (news : List NewsRow) (article_id : Nat)
    (summary keywords ts : String) : List NewsRow :=
  news.map (fun r =>
    if r.id == article_id then
      { r with summary := some summary, keywords := some keywords, analyzed_at := some ts }
    else r)

/-- The enrichment loop of `analyze_news_articles` (lines 453-487): the
summary and joined keyword strings produced by the LLM for each selected
article are oracles indexed by the article id; each selected row is
updated in turn. -/
def analyzeArticles (news : List NewsRow) (limit : Nat)
    (summaryOf keywordsOf : Nat → String) (ts : String) : List NewsRow :=
  (findUnenriched news limit).foldl
    (fun acc a => markAnalyzed acc a.id (summaryOf a.id) (keywordsOf a.id) ts) news

theorem mem_markAnalyzed_of_ne (news : List NewsRow) (i : Nat) (s k ts : String)
    (r : NewsRow) (hr : r ∈ news) (hne : r.id ≠ i) : r ∈ markAnalyzed news i s k ts := by
  have hb : (r.id == i) = false := by simpa using hne
  have : (fun x : NewsRow =>
      if x.id == i then
        { x with summary := some s, keywords := some k, analyzed_at := some ts }
      else x) r = r := by
    simp [hb]
  exact this ▸ List.mem_map_of_mem _ hr

theorem mem_foldl_markAnalyzed (sel : List NewsRow) (summaryOf keywordsOf : Nat → String)
    (ts : String) (r : NewsRow) :
    ∀ acc : List NewsRow, r ∈ acc → (∀ a ∈ sel, a.id ≠ r.id) →
      r ∈ sel.foldl (fun acc a => markAnalyzed acc a.id (summaryOf a.id) (keywordsOf a.id) ts) acc := by
  induction sel with
  | nil => intro acc hr _; exact hr
  | cons a sel ih =>
      intro acc hr hids
      rw [List.foldl_cons]
      exact ih _ (mem_markAnalyzed_of_ne acc a.id _ _ ts r hr
          (fun hEq => hids a (List.mem_cons_self _ _) hEq.symm))
        (fun x hx => hids x (List.mem_cons_of_mem _ hx))

theorem findUnenriched_subset (news : List NewsRow) (limit : Nat) :
    ∀ r ∈ findUnenriched news limit, r ∈ news ∧ r.analyzed_at = none := by
  intro r hr
  have hr1 : r ∈ (news.filter (fun r2 => r2.analyzed_at == none)).mergeSort orderLE :=
    List.mem_of_mem_take hr
  have hr2 : r ∈ news.filter (fun r2 => r2.analyzed_at == none) := List.mem_mergeSort.mp hr1
  have := (List.mem_filter.mp hr2).2
  exact ⟨(List.mem_filter.mp hr2).1, by simpa using this⟩

/-- C3: enrichment selection and exactly-once.  `findUnenriched` returns
only articles whose `analyzed_at` is NULL, at most `limit` of them, in
importance-desc/published-desc order; and — ids being unique, as the
INTEGER PRIMARY KEY guarantees — an already-enriched article is left
untouched by an enrichment run, so its `analyzed_at` transitions from
NULL to non-NULL at most once. -/
theorem C3_enrichment_exactly_once (news : List NewsRow) (limit : Nat)
    (summaryOf keywordsOf : Nat → String) (ts : String) :
    (∀ r ∈ findUnenriched news limit, r.analyzed_at = none)
    ∧ (findUnenriched news limit).length ≤ limit
    ∧ (findUnenriched news limit).Pairwise (fun a b => orderLE a b = true)
    ∧ ((news.map (·.id)).Nodup →
        ∀ r ∈ news, r.analyzed_at ≠ none →
          r ∈ analyzeArticles news limit summaryOf keywordsOf ts) := by
  refine ⟨fun r hr => (findUnenriched_subset news limit r hr).2, ?_, ?_, ?_⟩
  · rw [findUnenriched, List.length_take]
    exact min_le_left _ _
  · have hs := List.sorted_mergeSort orderLE_trans orderLE_total
      (news.filter (fun r => r.analyzed_at == none))
    exact hs.sublist (List.take_sublist _ _)
  · intro hnodup r hr hranal
    rw [analyzeArticles]
    refine mem_foldl_markAnalyzed _ summaryOf keywordsOf ts r news hr ?_
    intro a ha hEq
    have hamem := findUnenriched_subset news limit a ha
    have : a = r := List.inj_on_of_nodup_map hnodup hamem.1 hr hEq
    exact hranal (this ▸ hamem.2)

/-- Witness for C3: a store with one already-enriched row; an enrichment
run keeps the row. -/
theorem C3_witness :
    (([({ id := 1, hash := "h1", title := "a", content := "", summary := some "s0",
          source := "src", url := "", category := "c", keywords := some "k0",
          importance := 1, published := "2025", collected_at := "t0",
          analyzed_at := some "t1" } : NewsRow)].map (·.id)).Nodup)
    ∧ ({ id := 1, hash := "h1", title := "a", content := "", summary := some "s0",
          source := "src", url := "", category := "c", keywords := some "k0",
          importance := 1, published := "2025", collected_at := "t0",
          analyzed_at := some "t1" } : NewsRow)
        ∈ analyzeArticles
            [{ id := 1, hash := "h1", title := "a", content := "", summary := some "s0",
               source := "src", url := "", category := "c", keywords := some "k0",
               importance := 1, published := "2025", collected_at := "t0",
               analyzed_at := some "t1" }] 5 (fun _ => "s") (fun _ => "k") "t2" :=
  ⟨by simp,
   (C3_enrichment_exactly_once
      [{ id := 1, hash := "h1", title := "a", content := "", summary := some "s0",
         source := "src", url := "", category := "c", keywords := some "k0",
         importance := 1, published := "2025", collected_at := "t0",
         analyzed_at := some "t1" }] 5 (fun _ => "s") (fun _ => "k") "t2").2.2.2
     (by simp) _ (List.mem_singleton.mpr rfl) (by simp)⟩

/-- C8 counterexample: the UPDATE behind `markEnriched` targeting an
absent id (no row with id 99) is a silent no-op returning the store
unchanged; SQLite's `cursor.execute` raises nothing when an UPDATE
matches zero rows, so no `NotFoundError` exists anywhere in the code. -/
theorem C8_counterexample :
    markAnalyzed
      [{ id := 1, hash := "h", title := "t", content := "c", summary := none,
         source := "s", url := "u", category := "разное", keywords := none,
         importance := 1, published := "p", collected_at := "n", analyzed_at := none }]
      99 "s" "k" "ts"
    = [{ id := 1, hash := "h", title := "t", content := "c", summary := none,
         source := "s", url := "u", category := "разное", keywords := none,
         importance := 1, published := "p", collected_at := "n", analyzed_at := none }] := rfl

/-- C8 as amended: `markEnriched` updates at most the rows carrying the
given id — exactly the one row when the id is present and ids are unique
— and when no row carries the id it leaves the store unchanged and
reports nothing: there is no `NotFoundError`. -/
theorem C8_markEnriched_spec (news : List NewsRow) (i : Nat) (s k ts : String) :
    ((∀ r ∈ news, r.id ≠ i) → markAnalyzed news i s k ts = news)
    ∧ (markAnalyzed news i s k ts).length = news.length
    ∧ (∀ r ∈ news, r.id ≠ i → r ∈ markAnalyzed news i s k ts)
    ∧ (∀ r ∈ news, r.id = i →
        { r with summary := some s, keywords := some k, analyzed_at := some ts }
          ∈ markAnalyzed news i s k ts) := by
  refine ⟨?_, ?_, ?_, ?_⟩
  · intro hall
    rw [markAnalyzed]
    have hcongr : ∀ r ∈ news, (fun x : NewsRow =>
        if x.id == i then
          { x with summary := some s, keywords := some k, analyzed_at := some ts }
        else x) r = id r := by
      intro r hr
      have hb : (r.id == i) = false := by simpa using hall r hr
      simp [hb]
    rw [List.map_congr_left hcongr, List.map_id]
  · exact List.length_map _ _
  · exact fun r hr hne => mem_markAnalyzed_of_ne news i s k ts r hr hne
  · intro r hr hEq
    have hb : (r.id == i) = true := beq_iff_eq.mpr hEq
    have : (fun x : NewsRow =>
        if x.id == i then
          { x with summary := some s, keywords := some k, analyzed_at := some ts }
        else x) r
        = { r with summary := some s, keywords := some k, analyzed_at := some ts } := by
      simp [hb]
    exact this ▸ List.mem_map_of_mem _ hr

/-- Witness for C8: updating the one present id rewrites exactly that
row. -/
theorem C8_witness :
    ({ id := 1, hash := "h", title := "t", content := "c", summary := some "s2",
       source := "s", url := "u", category := "разное", keywords := some "k2",
       importance := 1, published := "p", collected_at := "n",
       analyzed_at := some "ts2" } : NewsRow)
      ∈ markAnalyzed
          [{ id := 1, hash := "h", title := "t", content := "c", summary := none,
             source := "s", url := "u", category := "разное", keywords := none,
             importance := 1, published := "p", collected_at := "n", analyzed_at := none }]
          1 "s2" "k2" "ts2" :=
  (C8_markEnriched_spec
      [{ id := 1, hash := "h", title := "t", content := "c", summary := none,
         source := "s", url := "u", category := "разное", keywords := none,
         importance := 1, published := "p", collected_at := "n", analyzed_at := none }]
      1 "s2" "k2" "ts2").2.2.2 _ (List.mem_singleton.mpr rfl) rfl

/-- The summarization prompt of `summarize_text` (lines 295-300), with
the source text bounded to its first 800 characters. -/
def summaryPrompt (text : String) : String :=
  "Создай краткое резюме текста (1-2 предложения):\n\nТЕКСТ:\n" ++ text.take 800
    ++ "\n\nРЕЗЮМЕ:"

/-- Embedding of `NewsAgentV2.summarize_text` (lines 281-303).  The
`llm` oracle stands for `call_llm`, which itself never raises (lines
243-279 convert every transport failure into a sentinel string); the
result of the LLM path is truncated to `max_length` characters. -/
def summarize_text (llm : String → String) (text : String) (max_length : Nat) : String :=
  if text.length < 50 then text
  else (llm (summaryPrompt text)).take max_length

/-- The keyword-extraction prompt of `extract_keywords` (lines 319-325),
with the source text bounded to its first 500 characters. -/
def keywordsPrompt (text : String) (max_keywords : Nat) : String :=
  "Извлеки " ++ toString max_keywords
    ++ " ключевых слов или фраз из текста.\nВерни только слова через запятую, без объяснений.\n\nТЕКСТ:\n"
    ++ text.take 500 ++ "\n\nКЛЮЧЕВЫЕ СЛОВА:"

/-- The response parsing of `extract_keywords` (lines 329-336): split on
commas, strip each item, keep items longer than one character (`item and
len(item) > 1`), cap at `max_keywords`. -/
def parseKeywords (response : String) (max_keywords : Nat) : List String :=
  (((response.splitOn ",").map pyStrip).filter (fun item => 1 < item.length)).take max_keywords

/-- Embedding of `NewsAgentV2.extract_keywords` (lines 305-336). -/
def extract_keywords (llm : String → String) (text : String) (max_keywords : Nat) : List String :=
  if text.length < 20 then []
  else parseKeywords (llm (keywordsPrompt text max_keywords)) max_keywords

/-- The context lines built by `analyze_topic` (lines 520-526) from the
top three relevant articles: an enumerated headline line per article,
followed by an indented summary line when the summary is truthy
(non-NULL and non-empty). -/
def contextLines (relevant : List NewsRow) : List String :=
  ((relevant.take 3).enumFrom 1).flatMap (fun p =>
    let line := toString p.1 ++ ". " ++ p.2.title ++ " (" ++ p.2.source ++ ")"
    match p.2.summary with
    | some s => if s = "" then [line] else [line, "   " ++ s]
    | none => [line])

/-- The context block of `analyze_topic`: empty when no relevant news
was found, else the joined context lines. -/
def buildContext (relevant : List NewsRow) : String :=
  if relevant.isEmpty then "" else String.intercalate "\n" (contextLines relevant)

/-- The five-section analysis prompt of `analyze_topic` (lines 529-543);
an empty context block is replaced by the explicit no-context marker. -/
def analysisPrompt (topic context : String) : String :=
  "Проведи глубокий анализ темы на основе предоставленного контекста.\n\nТЕМА ДЛЯ АНАЛИЗА: "
    ++ topic ++ "\n\nКОНТЕКСТ ИЗ НОВОСТЕЙ:\n"
    ++ (if context = "" then "Нет релевантных новостей в базе" else context)
    ++ "\n\nСТРУКТУРА АНАЛИЗА:\n1. ОСНОВНЫЕ АСПЕКТЫ ТЕМЫ\n2. КЛЮЧЕВЫЕ ФАКТЫ И ТЕНДЕНЦИИ  \n3. ВОЗМОЖНЫЕ ПРИЧИНЫ И СЛЕДСТВИЯ\n4. ПЕРСПЕКТИВЫ И ПРОГНОЗЫ\n5. ВЫВОДЫ И РЕКОМЕНДАЦИИ\n\nАНАЛИЗ:"

/-- The result dictionary returned by `analyze_topic` (success shape at
lines 575-583, failure shape at lines 594-599); fields present in only
one of the two dictionaries are `Option`s. -/
structure AnalyzeResult where
  topic : String
  analysis : Option String
  keywords : Option (List String)
  relevant_news_count : Option Nat
  analysis_time_seconds : Option ℚ
  success : Bool
  error : Option String
  timestamp : String
deriving DecidableEq

/-- Embedding of `NewsAgentV2.analyze_topic` (lines 499-599).  Retrieval
(`search_news` catches internally and returns a list), prompt
construction, and generation (`call_llm` catches internally) cannot
raise; the database INSERT/upsert/commit inside the `try` block is the
raising step and is modelled by the `persist` argument.  `duration` is
the wall-clock seconds between entry and return; `endTs` the return
timestamp.  On an exception the `except` clause builds the failure
dictionary instead of propagating. -/
def analyze_topic (news : List NewsRow) (topic : String) (llm : String → String)
    (persist : Except String Unit) (duration : ℚ) (endTs : String) : AnalyzeResult :=
  let relevant := search_news news topic 5
  let context := buildContext relevant
  let analysis := llm (analysisPrompt topic context)
  let keywords := extract_keywords llm analysis 5
  match persist with
  | .ok _ =>
      { topic := topic, analysis := some analysis, keywords := some keywords,
        relevant_news_count := some relevant.length,
        analysis_time_seconds := some duration, success := true, error := none,
        timestamp := endTs }
  | .error e =>
      { topic := topic, analysis := none, keywords := none, relevant_news_count := none,
        analysis_time_seconds := none, success := false, error := some e,
        timestamp := endTs }

/-- C7: `analyze_topic` always returns a well-formed result object and
never propagates an exception (the embedding is a total function).  When
every step succeeds the result carries the topic, the generated analysis
text, the extracted keyword list, the relevant-article count, the
duration and timestamp, with `success = true` and no error; when the
persistence step raises, the result has `success = false` and carries
the error message. -/
theorem C7_analyze_topic_never_raises (news : List NewsRow) (topic : String)
    (llm : String → String) (persist : Except String Unit) (duration : ℚ) (endTs : String) :
    ((analyze_topic news topic llm persist duration endTs).success = true
      ↔ persist = .ok ())
    ∧ ((analyze_topic news topic llm persist duration endTs).success = true →
        (analyze_topic news topic llm persist duration endTs)
          = { topic := topic,
              analysis := some (llm (analysisPrompt topic
                (buildContext (search_news news topic 5)))),
              keywords := some (extract_keywords llm
                (llm (analysisPrompt topic (buildContext (search_news news topic 5)))) 5),
              relevant_news_count := some (search_news news topic 5).length,
              analysis_time_seconds := some duration, success := true, error := none,
              timestamp := endTs })
    ∧ ((analyze_topic news topic llm persist duration endTs).success = false →
        ∃ e, persist = .error e
          ∧ (analyze_topic news topic llm persist duration endTs)
              = { topic := topic, analysis := none, keywords := none,
                  relevant_news_count := none, analysis_time_seconds := none,
                  success := false, error := some e, timestamp := endTs }) := by
  cases persist with
  | ok u =>
      cases u
      exact ⟨⟨fun _ => rfl, fun _ => rfl⟩, fun _ => rfl,
        fun h => absurd h (by simp [analyze_topic])⟩
  | error e =>
      refine ⟨⟨fun h => absurd h (by simp [analyze_topic]), fun h => by cases h⟩,
        fun h => absurd h (by simp [analyze_topic]), fun _ => ⟨e, rfl, rfl⟩⟩

/-- Witness for C7 on an empty store with a successful persistence. -/
theorem C7_witness :
    ((analyze_topic [] "квант" (fun _ => "анализ") (.ok ()) 2 "t1").success = true)
    ∧ (analyze_topic [] "квант" (fun _ => "анализ") (.ok ()) 2 "t1").error = none
    ∧ (analyze_topic [] "квант" (fun _ => "анализ") (.ok ()) 2 "t1").topic = "квант" := by
  have h := (C7_analyze_topic_never_raises [] "квант" (fun _ => "анализ")
    (.ok ()) 2 "t1").2.1 rfl
  exact ⟨by rw [h], by rw [h], by rw [h]⟩

/-- C10: for every text shorter than 50 characters `summarize_text`
returns the text itself, and the result does not depend on the LLM
oracle at all — the model is never invoked on short inputs, so a
persisted summary can equal the raw article text. -/
theorem C10_short_text_bypasses_llm (llm llm2 : String → String) (text : String)
    (max_length : Nat) (h : text.length < 50) :
    summarize_text llm text max_length = text
    ∧ summarize_text llm text max_length = summarize_text llm2 text max_length := by
  rw [summarize_text, summarize_text, if_pos h, if_pos h]
  exact ⟨rfl, rfl⟩

/-- Witness for C10 at a concrete 15-character text. -/
theorem C10_witness :
    ("Краткая новость".length < 50)
    ∧ summarize_text (fun _ => "ответ модели") "Краткая новость" 150 = "Краткая новость" :=
  ⟨by decide,
   (C10_short_text_bypasses_llm (fun _ => "ответ модели") (fun _ => "другой ответ")
      "Краткая новость" 150 (by decide)).1⟩

end NewsAgent
